import Mathlib

/-
Verification of the ellipsoidal reachability core of the repository
(`gp_ellipsoidal_reachability/gp_reachability.py`).

The state space has dimension `ns`, the control space dimension `nu`.
Vectors are `Fin ns → ℝ` (the source's `n_s × 1` column arrays), matrices
are Mathlib `Matrix` values over `ℝ`.  The predictive model (`SimpleGPModel`
in the source) is an interface supplying a predictive mean, a predictive
variance and the Jacobian of the mean at a query point `z = [x; u]`.

Diagnostic output: the source prints intermediate ellipsoids via
`print_ellipsoid(..., text = tag)` and `print(...)`.  The embedding keeps a
`List String` log of the tags of the diagnostics that an execution emits
(the numeric formatting itself carries no information relevant to any
claim); this makes the observable print behaviour, including output that
the exception in `multistep_reachability` would be preceded by, part of the
function's value.

`utils.py` and `utils_ellipsoid.py` are not part of the source tree; the
three geometry routines imported from them are modelled from the spec and
marked as such in their doc comments.
-/

open Matrix

/-- Predictive-model interface of the source (`SimpleGPModel`): `predict z`
returns the predictive mean and the (diagonal) predictive variance at the
stacked query point `z = [x; u]`, and `predictive_gradients z` returns the
Jacobian of the mean with respect to `[x; u]` at `z`. -/
structure SimpleGPModel (ns nu : ℕ) where
  predict : (Fin (ns + nu) → ℝ) → (Fin ns → ℝ) × (Fin ns → ℝ)
  predictive_gradients : (Fin (ns + nu) → ℝ) → Matrix (Fin ns) (Fin (ns + nu)) ℝ

/-- Modelled from the spec: `compute_bounding_box_lagrangian` lives in
`utils.py`, which is missing from the source tree.  Following §4.1 of the
spec, it bounds the Lagrange remainder elementwise over the input ellipsoid
`(p, q)`: the maximum extent of the ellipsoid (through the state, and
through the control law via `K`) is scaled by the per-dimension Lipschitz
constant `L i`, quadratically for `order = 2` (second-order Taylor
remainder of the mean) and linearly for `order = 1` (first-order remainder
of the predictive standard deviation).  The box is symmetric about zero.
The spec does not specify diagnostics for this routine, so it contributes
nothing to the log. -/
noncomputable def compute_bounding_box_lagrangian {ns nu : ℕ} (p : Fin ns → ℝ)
    (q : Matrix (Fin ns) (Fin ns) ℝ) (L : Fin ns → ℝ)
    (K : Matrix (Fin nu) (Fin ns) ℝ) (k : Fin nu → ℝ) (order : ℕ) (verbose : ℤ) :
    (Fin ns → ℝ) × (Fin ns → ℝ) :=
  let m := Real.sqrt (∑ i, q i i)
  let mk := Real.sqrt (∑ j, (K * q * Kᵀ) j j)
  if order = 2 then
    (fun i => -(L i * (m + mk) ^ 2 / 2), fun i => L i * (m + mk) ^ 2 / 2)
  else
    (fun i => -(L i * (m + mk)), fun i => L i * (m + mk))

/-- Modelled from the spec: `ellipsoid_from_box` lives in
`utils_ellipsoid.py`, which is missing from the source tree.  Following
§4.1 of the spec it is called with `diag_only = True` and returns an
axis-aligned diagonal shape matrix containing the box `[lb, ub]`: the
diagonal entry for dimension `i` is derived from `max |lb i| |ub i|`,
scaled by the dimension so the ellipsoid reaches the box corners. -/
noncomputable def ellipsoid_from_box {ns : ℕ} (lb ub : Fin ns → ℝ) :
    Matrix (Fin ns) (Fin ns) ℝ :=
  Matrix.diagonal (fun i => (ns : ℝ) * max |lb i| |ub i| ^ 2)

/-- Modelled from the spec: `sum_ellipsoids` lives in `utils_ellipsoid.py`,
which is missing from the source tree.  Following §4.1 of the spec, the
conservative overapproximation of the Minkowski sum of two ellipsoids has
center `p1 + p2` and shape `(1 + 1/τ) Q1 + (1 + τ) Q2`, with the τ-balancing
rule the spec documents, `τ = √(trace Q1 / trace Q2)`. -/
noncomputable def sum_ellipsoids {ns : ℕ} (p1 : Fin ns → ℝ)
    (Q1 : Matrix (Fin ns) (Fin ns) ℝ) (p2 : Fin ns → ℝ)
    (Q2 : Matrix (Fin ns) (Fin ns) ℝ) :
    (Fin ns → ℝ) × Matrix (Fin ns) (Fin ns) ℝ :=
  let t := Real.sqrt (Q1.trace / Q2.trace)
  (p1 + p2, (1 + 1 / t) • Q1 + (1 + t) • Q2)

/-- One-step ellipsoidal reachability (`onestep_reachability` in
`gp_reachability.py`), translated line by line.  The returned value is the
pair `(p_1, q_1)` of the source together with the log of diagnostic tags
the call prints.  `q_shape = none` is the source's `q_shape = None`
point-case branch; `some` is the ellipsoid-set branch. -/
noncomputable def onestep_reachability {ns nu : ℕ} (p_center : Fin ns → ℝ)
    (gp : SimpleGPModel ns nu) (K : Matrix (Fin nu) (Fin ns) ℝ) (k : Fin nu → ℝ)
    (L_mu L_sigm : Fin ns → ℝ) (q_shape : Option (Matrix (Fin ns) (Fin ns) ℝ))
    (c_safety : ℝ) (verbose : ℤ) :
    ((Fin ns → ℝ) × Matrix (Fin ns) (Fin ns) ℝ) × List String :=
  let log0 : List String :=
    if 0 < verbose then
      (match q_shape with
       | some _ => ["initial uncertainty ellipsoid"]
       | none => [])
    else []
  match q_shape with
  | none =>
    let u_p := K.mulVec p_center + k
    let log1 : List String := if 0 < verbose then ["Applying action:"] else []
    let z_bar := Fin.append p_center u_p
    let pr := gp.predict z_bar
    let p_new := pr.1
    let q_new_unscaled := pr.2
    let q_1 := Matrix.diagonal (fun i => q_new_unscaled i * c_safety)
    let p_1 := p_center + p_new
    let log2 : List String := if 0 < verbose then ["uncertainty first state"] else []
    ((p_1, q_1), log0 ++ log1 ++ log2)
  | some q_shape =>
    let x_bar := p_center
    let u_bar := k
    let z_bar := Fin.append x_bar u_bar
    let log1 : List String := if 0 < verbose then ["Applying action:"] else []
    let ms := gp.predict z_bar
    let mu_0 := ms.1
    let sigm_0 := ms.2
    let log2 : List String := if 0 < verbose then ["predictive distribution"] else []
    let Jac_mu := gp.predictive_gradients z_bar
    let A_mu : Matrix (Fin ns) (Fin ns) ℝ := Jac_mu.submatrix id (Fin.castAdd nu)
    let B_mu : Matrix (Fin ns) (Fin nu) ℝ := Jac_mu.submatrix id (Fin.natAdd ns)
    let H := A_mu + B_mu * K
    let p_0 := mu_0 + B_mu.mulVec (k - u_bar)
    let Q_0 := H * q_shape * Hᵀ
    let log3 : List String :=
      if 0 < verbose then ["linear transformation uncertainty"] else []
    let bb_mean := compute_bounding_box_lagrangian p_center q_shape L_mu K k 2 verbose
    let bb_sigm := compute_bounding_box_lagrangian p_center q_shape L_sigm K k 1 verbose
    let ub_sigm := bb_sigm.2
    let Q_lagrange_sigm :=
      Matrix.diagonal (fun i => c_safety * (ub_sigm i + Real.sqrt (sigm_0 i)) ^ 2)
    let p_lagrange_sigm : Fin ns → ℝ := 0
    let log4 : List String :=
      if 0 < verbose then ["overapproximation lagrangian sigma"] else []
    let Q_lagrange_mu := ellipsoid_from_box bb_mean.1 bb_mean.2
    let p_lagrange_mu : Fin ns → ℝ := 0
    let log5 : List String :=
      if 0 < verbose then ["overapproximation lagrangian mu"] else []
    let s1 := sum_ellipsoids p_lagrange_sigm Q_lagrange_sigm p_lagrange_mu Q_lagrange_mu
    let s2 := sum_ellipsoids s1.1 s1.2 p_0 Q_0
    let log6 : List String := ["accumulated uncertainty current step"]
    let s3 := sum_ellipsoids s2.1 s2.2 p_center q_shape
    let log7 : List String := ["sum old and new uncertainty"]
    ((s3.1, s3.2), log0 ++ log1 ++ log2 ++ log3 ++ log4 ++ log5 ++ log6 ++ log7)

/-- Multi-step reachability driver (`multistep_reachability` in
`gp_reachability.py`), translated line by line: it extracts the step-0
gains, runs the first one-step propagation with `q_shape = None`, and then
unconditionally raises `NotImplementedError("Still need to work on this!")`.
The horizon is `n + 1` (the source indexes `K[0]`, so at least one step).
The returned value is the raised error (carrying the source's message)
paired with the diagnostic log the first one-step call printed before the
exception. -/
noncomputable def multistep_reachability {ns nu n : ℕ} (p_0 : Fin ns → ℝ)
    (gp : SimpleGPModel ns nu) (K : Fin (n + 1) → Matrix (Fin nu) (Fin ns) ℝ)
    (k : Fin (n + 1) → Fin nu → ℝ) (L_mu L_sigm : Fin ns → ℝ)
    (q_0 : Option (Matrix (Fin ns) (Fin ns) ℝ)) (c_safety : ℝ) (verbose : ℤ) :
    Except String ((Fin ns → ℝ) × Matrix (Fin ns) (Fin ns) ℝ) × List String :=
  let K_0 := K 0
  let k_0 := k 0
  let r := onestep_reachability p_0 gp K_0 k_0 L_mu L_sigm none c_safety verbose
  (Except.error "Still need to work on this!", r.2)

/-
Named forms of the set-branch intermediates of `onestep_reachability`, used
to state the claims about that branch.  Each unfolds to the corresponding
`let`-bound value of the translation above.
-/

/-- Linearization point of the set branch: `z_bar = vstack((x_bar, u_bar))`
with `x_bar = p_center` and `u_bar = k`. -/
def zbar_set {ns nu : ℕ} (p_center : Fin ns → ℝ) (k : Fin nu → ℝ) :
    Fin (ns + nu) → ℝ :=
  Fin.append p_center k

/-- State block `A_mu = Jac_mu[0, :, :n_s]` of the mean Jacobian. -/
noncomputable def A_mu_of {ns nu : ℕ} (gp : SimpleGPModel ns nu)
    (p_center : Fin ns → ℝ) (k : Fin nu → ℝ) : Matrix (Fin ns) (Fin ns) ℝ :=
  (gp.predictive_gradients (zbar_set p_center k)).submatrix id (Fin.castAdd nu)

/-- Action block `B_mu = Jac_mu[0, :, n_s:]` of the mean Jacobian. -/
noncomputable def B_mu_of {ns nu : ℕ} (gp : SimpleGPModel ns nu)
    (p_center : Fin ns → ℝ) (k : Fin nu → ℝ) : Matrix (Fin ns) (Fin nu) ℝ :=
  (gp.predictive_gradients (zbar_set p_center k)).submatrix id (Fin.natAdd ns)

/-- Closed-loop linear map `H = A_mu + B_mu · K` of the set branch. -/
noncomputable def H_of {ns nu : ℕ} (gp : SimpleGPModel ns nu)
    (p_center : Fin ns → ℝ) (k : Fin nu → ℝ)
    (K : Matrix (Fin nu) (Fin ns) ℝ) : Matrix (Fin ns) (Fin ns) ℝ :=
  A_mu_of gp p_center k + B_mu_of gp p_center k * K

/-- Center of the linear-propagation ellipsoid,
`p_0 = mu_0 + B_mu · (k - u_bar)`. -/
noncomputable def p0_of {ns nu : ℕ} (gp : SimpleGPModel ns nu)
    (p_center : Fin ns → ℝ) (k : Fin nu → ℝ) : Fin ns → ℝ :=
  (gp.predict (zbar_set p_center k)).1 + (B_mu_of gp p_center k).mulVec (k - k)

/-- Shape of the linear-propagation ellipsoid, `Q_0 = H · q_shape · Hᵀ`. -/
noncomputable def Q0_of {ns nu : ℕ} (gp : SimpleGPModel ns nu)
    (p_center : Fin ns → ℝ) (k : Fin nu → ℝ) (K : Matrix (Fin nu) (Fin ns) ℝ)
    (q_shape : Matrix (Fin ns) (Fin ns) ℝ) : Matrix (Fin ns) (Fin ns) ℝ :=
  H_of gp p_center k K * q_shape * (H_of gp p_center k K)ᵀ

/-- The `c_safety`-independent core of the variance-remainder ellipsoid:
`diag((ub_sigm + sqrt(sigm_0))²)`, so that the source's
`Q_lagrange_sigm = c_safety • ` this matrix. -/
noncomputable def Vsigm_of {ns nu : ℕ} (gp : SimpleGPModel ns nu)
    (p_center : Fin ns → ℝ) (K : Matrix (Fin nu) (Fin ns) ℝ) (k : Fin nu → ℝ)
    (L_sigm : Fin ns → ℝ) (q_shape : Matrix (Fin ns) (Fin ns) ℝ) (verbose : ℤ) :
    Matrix (Fin ns) (Fin ns) ℝ :=
  Matrix.diagonal (fun i =>
    ((compute_bounding_box_lagrangian p_center q_shape L_sigm K k 1 verbose).2 i +
      Real.sqrt ((gp.predict (zbar_set p_center k)).2 i)) ^ 2)

/-- Variance-remainder ellipsoid shape of the set branch,
`Q_lagrange_sigm = diag(c_safety · (ub_sigm + sqrt(sigm_0))²)`. -/
noncomputable def Q_lagrange_sigm_of {ns nu : ℕ} (gp : SimpleGPModel ns nu)
    (p_center : Fin ns → ℝ) (K : Matrix (Fin nu) (Fin ns) ℝ) (k : Fin nu → ℝ)
    (L_sigm : Fin ns → ℝ) (q_shape : Matrix (Fin ns) (Fin ns) ℝ) (c_safety : ℝ)
    (verbose : ℤ) : Matrix (Fin ns) (Fin ns) ℝ :=
  Matrix.diagonal (fun i =>
    c_safety *
      ((compute_bounding_box_lagrangian p_center q_shape L_sigm K k 1 verbose).2 i +
        Real.sqrt ((gp.predict (zbar_set p_center k)).2 i)) ^ 2)

/-- Mean-remainder ellipsoid shape of the set branch,
`Q_lagrange_mu = ellipsoid_from_box(lb_mean, ub_mean)`. -/
noncomputable def Q_lagrange_mu_of {ns nu : ℕ} (p_center : Fin ns → ℝ)
    (K : Matrix (Fin nu) (Fin ns) ℝ) (k : Fin nu → ℝ) (L_mu : Fin ns → ℝ)
    (q_shape : Matrix (Fin ns) (Fin ns) ℝ) (verbose : ℤ) :
    Matrix (Fin ns) (Fin ns) ℝ :=
  ellipsoid_from_box
    (compute_bounding_box_lagrangian p_center q_shape L_mu K k 2 verbose).1
    (compute_bounding_box_lagrangian p_center q_shape L_mu K k 2 verbose).2

/-
Untyped (numpy-shaped) model of the point-case branch, for the
shape-mismatch claim.  Matrices are row lists of rows; vectors are `m × 1`
column matrices, as in the source (`p_center`, `k`, `u_p` are all
2-dimensional `n × 1` arrays there).  Operations check dimensions the way
numpy does for 2-D arrays — `np.dot` and elementwise `+` raise on
incompatible shapes, modelled as `none` — so the embedding records where
the source fails fast and where it silently succeeds.
-/

/-- Shape of a 2-D array: `none` models an input `np.shape` destructuring
`n_u, n_s = np.shape(K)` would reject (ragged rows or a 1-D empty list). -/
def shape2 (M : List (List ℝ)) : Option (ℕ × ℕ) :=
  match M with
  | [] => none
  | r :: _ => if M.all (fun row => row.length = r.length) then
      some (M.length, r.length)
    else none

/-- Dot product of two equal-length real lists. -/
noncomputable def dotRow (r v : List ℝ) : ℝ :=
  (List.zipWith (fun a b => a * b) r v).foldl (fun a b => a + b) 0

/-- Transpose of a rectangular 2-D array. -/
noncomputable def transposeU (M : List (List ℝ)) : List (List ℝ) :=
  match M with
  | [] => []
  | r :: _ => (List.range r.length).map (fun j => M.map (fun row => row.getD j 0))

/-- `np.dot` for 2-D arrays: defined exactly when the inner dimensions
agree; numpy raises a `ValueError` otherwise (it never broadcasts `dot`). -/
noncomputable def matmulU (A B : List (List ℝ)) : Option (List (List ℝ)) :=
  match shape2 A, shape2 B with
  | some s1, some s2 =>
    if s1.2 = s2.1 then
      some (A.map (fun r => (transposeU B).map (fun col => dotRow r col)))
    else none
  | _, _ => none

/-- Entry `(i, j)` of a 2-D array of shape `(r, c)` read under numpy
broadcasting: a size-1 axis is indexed at 0. -/
noncomputable def broadcastGet (M : List (List ℝ)) (r c i j : ℕ) : ℝ :=
  (M.getD (if r = 1 then 0 else i) []).getD (if c = 1 then 0 else j) 0

/-- Elementwise sum of two 2-D arrays with numpy broadcasting: each axis
pair must be equal or contain a 1 (otherwise numpy raises, modelled as
`none`); the result has the elementwise maximum shape, size-1 axes being
stretched. -/
noncomputable def addU (A B : List (List ℝ)) : Option (List (List ℝ)) :=
  match shape2 A, shape2 B with
  | some (r1, c1), some (r2, c2) =>
    if (r1 = r2 ∨ r1 = 1 ∨ r2 = 1) ∧ (c1 = c2 ∨ c1 = 1 ∨ c2 = 1) then
      some ((List.range (max r1 r2)).map (fun i =>
        (List.range (max c1 c2)).map (fun j =>
          broadcastGet A r1 c1 i j + broadcastGet B r2 c2 i j)))
    else none
  | _, _ => none

/-- `np.vstack` of two 2-D arrays: requires equal column counts. -/
noncomputable def vstackU (A B : List (List ℝ)) : Option (List (List ℝ)) :=
  match shape2 A, shape2 B with
  | some s1, some s2 => if s1.2 = s2.2 then some (A ++ B) else none
  | _, _ => none

/-- `np.squeeze` of a model output `1 × n` (the model contract of §6:
`predict` returns row vectors for a single query): every size-1 axis is
dropped, so for `n ≥ 2` the result is the 1-d row (`Sum.inr`), while for
`n = 1` it is a 0-dimensional scalar (`Sum.inl`). -/
def squeezeU (M : List (List ℝ)) : Option (ℝ ⊕ List ℝ) :=
  match M with
  | [[x]] => some (Sum.inl x)
  | [r] => some (Sum.inr r)
  | _ => none

/-- Elementwise scalar multiplication on a squeezed (0-d or 1-d) array,
as in the source's `q_new_unscaled.squeeze() * c_safety`. -/
noncomputable def scaleSqueezed (x : ℝ ⊕ List ℝ) (c : ℝ) : ℝ ⊕ List ℝ :=
  match x with
  | Sum.inl a => Sum.inl (a * c)
  | Sum.inr v => Sum.inr (v.map (fun a => a * c))

/-- `np.diag`: builds the diagonal matrix of a 1-d array; a 0-dimensional
input — which is what squeezing a size-1 variance array produces, i.e. the
point branch at `n_s = 1` — raises
`ValueError("Input must be 1- or 2-d.")`, modelled as `none`. -/
noncomputable def diagU : ℝ ⊕ List ℝ → Option (List (List ℝ))
  | Sum.inl _ => none
  | Sum.inr v => some ((List.range v.length).map (fun i =>
      (List.range v.length).map (fun j => if i = j then v.getD i 0 else 0)))

/-- Concrete predictive model on a 1-dimensional state and action space,
used to evaluate the translation on explicit inputs: constant mean `1`,
constant variance `1`, and constant mean Jacobian `[1, 0]`
(so `A_mu = [[1]]`, `B_mu = [[0]]`). -/
noncomputable def gp1 : SimpleGPModel 1 1 where
  predict := fun _ => ((fun _ => 1), (fun _ => 1))
  predictive_gradients := fun _ => !![1, 0]

/-- The point-case branch of `onestep_reachability` (lines 59–77 of
`gp_reachability.py`, the `q_shape is None` path) over numpy-shaped dynamic
arrays: `n_u, n_s = np.shape(K)`; `u_p = np.dot(K, p_center) + k`;
`z_bar = np.vstack((p_center, u_p))`; `p_new, q_new = gp.predict(z_bar.T)`;
`q_1 = np.diag(q_new.squeeze() * c_safety)`; `p_1 = p_center + p_new.T`.
A `none` result models the call raising: in particular at `n_s = 1` the
squeezed variance is 0-dimensional and `np.diag` raises, so every
point-branch call fails there.  Note that `L_mu` and `L_sigm` appear in
the signature but in no operation of this branch. -/
noncomputable def onestep_reachability_point (p_center : List (List ℝ))
    (gp : List (List ℝ) → Option (List (List ℝ) × List (List ℝ)))
    (K : List (List ℝ)) (k : List (List ℝ)) (L_mu L_sigm : List ℝ)
    (c_safety : ℝ) : Option (List (List ℝ) × List (List ℝ)) := do
  let _nus ← shape2 K
  let Kp ← matmulU K p_center
  let u_p ← addU Kp k
  let z_bar ← vstackU p_center u_p
  let pr ← gp (transposeU z_bar)
  let q_new ← squeezeU pr.2
  let q_1 ← diagU (scaleSqueezed q_new c_safety)
  let p_1 ← addU p_center (transposeU pr.1)
  return (p_1, q_1)

/-
Claim theorems.
-/

/-- C1: the point-case branch of `onestep_reachability` computes the action
`u = K·p_center + k`, queries the model at the stacked point
`[p_center; u]`, and returns center `p_center + Δ` and shape
`diag(c_safety · σ²)`, where `(Δ, σ²)` is the model's predictive mean and
variance at that query point. -/
theorem onestep_point_case_eq {ns nu : ℕ} (p_center : Fin ns → ℝ)
    (gp : SimpleGPModel ns nu) (K : Matrix (Fin nu) (Fin ns) ℝ) (k : Fin nu → ℝ)
    (L_mu L_sigm : Fin ns → ℝ) (c_safety : ℝ) (verbose : ℤ) :
    (onestep_reachability p_center gp K k L_mu L_sigm none c_safety verbose).1 =
      (p_center + (gp.predict (Fin.append p_center (K.mulVec p_center + k))).1,
       Matrix.diagonal (fun i =>
         c_safety * (gp.predict (Fin.append p_center (K.mulVec p_center + k))).2 i)) := by
  have h : (fun i => (gp.predict (Fin.append p_center (K.mulVec p_center + k))).2 i * c_safety) =
      (fun i => c_safety * (gp.predict (Fin.append p_center (K.mulVec p_center + k))).2 i) :=
    funext fun i => mul_comm _ _
  exact congrArg (Prod.mk _) (congrArg Matrix.diagonal h)

/-- C10: the point-case branch of `onestep_reachability` does not depend on
the Lipschitz-constant arguments: two calls differing only in
`(L_mu, L_sigm)` return equal values. -/
theorem onestep_point_lipschitz_independent {ns nu : ℕ} (p_center : Fin ns → ℝ)
    (gp : SimpleGPModel ns nu) (K : Matrix (Fin nu) (Fin ns) ℝ) (k : Fin nu → ℝ)
    (L_mu L_sigm L_mu' L_sigm' : Fin ns → ℝ) (c_safety : ℝ) (verbose : ℤ) :
    onestep_reachability p_center gp K k L_mu L_sigm none c_safety verbose =
      onestep_reachability p_center gp K k L_mu' L_sigm' none c_safety verbose := rfl

/-- C6: in the set-case branch, every model query (mean, variance and
Jacobian) is made at the single linearization point `z̄ = [p_center; k]` —
replacing the model by one frozen at that point does not change the output
— and consequently the linear-propagation center
`p_0 = μ₀ + B_mu·(k − u_bar)` equals the predictive mean `μ₀`, since
`u_bar = k` makes the action offset zero. -/
theorem onestep_set_single_query_point {ns nu : ℕ} (p_center : Fin ns → ℝ)
    (gp : SimpleGPModel ns nu) (K : Matrix (Fin nu) (Fin ns) ℝ) (k : Fin nu → ℝ)
    (L_mu L_sigm : Fin ns → ℝ) (q : Matrix (Fin ns) (Fin ns) ℝ) (c_safety : ℝ)
    (verbose : ℤ) :
    onestep_reachability p_center
        ⟨fun _ => gp.predict (zbar_set p_center k),
         fun _ => gp.predictive_gradients (zbar_set p_center k)⟩
        K k L_mu L_sigm (some q) c_safety verbose =
      onestep_reachability p_center gp K k L_mu L_sigm (some q) c_safety verbose
    ∧ p0_of gp p_center k = (gp.predict (zbar_set p_center k)).1 := by
  refine ⟨rfl, ?_⟩
  unfold p0_of
  rw [sub_self, Matrix.mulVec_zero, add_zero]

/-- C4: in the set-case branch, the Jacobian is split into `A_mu` (the
first `n_s` columns, ∂mean/∂state) and `B_mu` (the remaining `n_u` columns,
∂mean/∂action), the closed-loop map is `H = A_mu + B_mu·K`, and the input
shape propagates as `Q_0 = H · q_shape · Hᵀ`. -/
theorem onestep_set_jacobian_split_propagation {ns nu : ℕ}
    (gp : SimpleGPModel ns nu) (p_center : Fin ns → ℝ) (k : Fin nu → ℝ)
    (K : Matrix (Fin nu) (Fin ns) ℝ) (q : Matrix (Fin ns) (Fin ns) ℝ) :
    (∀ (i : Fin ns) (j : Fin ns), A_mu_of gp p_center k i j =
        gp.predictive_gradients (zbar_set p_center k) i
          ⟨j.1, Nat.lt_of_lt_of_le j.isLt (Nat.le_add_right ns nu)⟩)
    ∧ (∀ (i : Fin ns) (j : Fin nu), B_mu_of gp p_center k i j =
        gp.predictive_gradients (zbar_set p_center k) i
          ⟨ns + j.1, Nat.add_lt_add_left j.isLt ns⟩)
    ∧ Q0_of gp p_center k K q =
        (A_mu_of gp p_center k + B_mu_of gp p_center k * K) * q *
          (A_mu_of gp p_center k + B_mu_of gp p_center k * K)ᵀ :=
  ⟨fun _ _ => rfl, fun _ _ => rfl, rfl⟩

/-- C5: the set-case output is produced by exactly three ellipsoid
summations in this order: variance-remainder + mean-remainder, that
intermediate + the linear-propagation ellipsoid `(p_0, Q_0)`, and that
accumulated step uncertainty + the original input ellipsoid
`(p_center, q_shape)`. -/
theorem onestep_set_three_ellipsoid_sums {ns nu : ℕ} (p_center : Fin ns → ℝ)
    (gp : SimpleGPModel ns nu) (K : Matrix (Fin nu) (Fin ns) ℝ) (k : Fin nu → ℝ)
    (L_mu L_sigm : Fin ns → ℝ) (q : Matrix (Fin ns) (Fin ns) ℝ) (c_safety : ℝ)
    (verbose : ℤ) :
    (onestep_reachability p_center gp K k L_mu L_sigm (some q) c_safety verbose).1 =
      (let s1 := sum_ellipsoids 0 (Q_lagrange_sigm_of gp p_center K k L_sigm q c_safety verbose)
                   0 (Q_lagrange_mu_of p_center K k L_mu q verbose)
       let s2 := sum_ellipsoids s1.1 s1.2 (p0_of gp p_center k) (Q0_of gp p_center k K q)
       let s3 := sum_ellipsoids s2.1 s2.2 p_center q
       (s3.1, s3.2)) := rfl

/-- C3: `multistep_reachability` ignores its initial shape argument `q_0`
entirely — the first one-step call receives `q_shape = None` even when
`q_0` is a non-null shape matrix, so the call with `some q_0` is
indistinguishable (result and diagnostic log) from the call with `none`. -/
theorem multistep_ignores_initial_shape {ns nu n : ℕ} (p_0 : Fin ns → ℝ)
    (gp : SimpleGPModel ns nu) (K : Fin (n + 1) → Matrix (Fin nu) (Fin ns) ℝ)
    (k : Fin (n + 1) → Fin nu → ℝ) (L_mu L_sigm : Fin ns → ℝ)
    (q_0 : Matrix (Fin ns) (Fin ns) ℝ) (c_safety : ℝ) (verbose : ℤ) :
    multistep_reachability p_0 gp K k L_mu L_sigm (some q_0) c_safety verbose =
      multistep_reachability p_0 gp K k L_mu L_sigm none c_safety verbose := rfl

/-- C2, counterexample: at a horizon of exactly one action (gain sequences
of length 1) `multistep_reachability` still raises the "not implemented"
error rather than returning the one-step result. -/
theorem multistep_horizon_one_raises :
    (multistep_reachability ![(0 : ℝ)] gp1 (fun _ : Fin 1 => !![(0 : ℝ)])
        (fun _ : Fin 1 => ![(0 : ℝ)]) ![(0 : ℝ)] ![(0 : ℝ)] none 1 1).1 =
      Except.error "Still need to work on this!" := rfl

/-- C2, amended: `multistep_reachability` computes the first reachability
step (emitting its diagnostics) and then raises the "not implemented"
error for every horizon, including a horizon of exactly one action. -/
theorem multistep_always_raises {ns nu n : ℕ} (p_0 : Fin ns → ℝ)
    (gp : SimpleGPModel ns nu) (K : Fin (n + 1) → Matrix (Fin nu) (Fin ns) ℝ)
    (k : Fin (n + 1) → Fin nu → ℝ) (L_mu L_sigm : Fin ns → ℝ)
    (q_0 : Option (Matrix (Fin ns) (Fin ns) ℝ)) (c_safety : ℝ) (verbose : ℤ) :
    multistep_reachability p_0 gp K k L_mu L_sigm q_0 c_safety verbose =
      (Except.error "Still need to work on this!",
       (onestep_reachability p_0 gp (K 0) (k 0) L_mu L_sigm none c_safety verbose).2) := rfl

/-- C8: evaluating the set branch at verbosity 0 shows the two summary
diagnostics ("accumulated uncertainty current step" and "sum old and new
uncertainty") are printed even though the verbosity level requests no
output — printing is not fully controlled by `verbose` — while the
returned center and shape are identical across verbosity levels. -/
theorem onestep_set_unconditional_prints :
    (onestep_reachability ![(0 : ℝ)] gp1 !![(0 : ℝ)] ![(0 : ℝ)] ![(1 : ℝ)] ![(1 : ℝ)]
        (some !![(1 : ℝ)]) 1 0).2 =
      ["accumulated uncertainty current step", "sum old and new uncertainty"]
    ∧ (onestep_reachability ![(0 : ℝ)] gp1 !![(0 : ℝ)] ![(0 : ℝ)] ![(1 : ℝ)] ![(1 : ℝ)]
        (some !![(1 : ℝ)]) 1 0).1 =
      (onestep_reachability ![(0 : ℝ)] gp1 !![(0 : ℝ)] ![(0 : ℝ)] ![(1 : ℝ)] ![(1 : ℝ)]
        (some !![(1 : ℝ)]) 1 1).1 :=
  ⟨rfl, rfl⟩

/-- C9, counterexample: a call of the point branch whose Lipschitz vectors
have the wrong length (here length 0 against `n_s = 2`) does not fail: it
silently returns a numeric result, because the point branch never touches
`L_mu` or `L_sigm`.  (The state dimension is 2 so that no operation of the
branch fails for an unrelated reason: at `n_s = 1` the squeezed variance
is 0-d and `np.diag` raises regardless of the Lipschitz arguments.) -/
theorem onestep_point_accepts_short_lipschitz :
    (onestep_reachability_point [[(0 : ℝ)], [(0 : ℝ)]]
        (fun _ => some ([[(5 : ℝ), (6 : ℝ)]], [[(7 : ℝ), (8 : ℝ)]]))
        [[(2 : ℝ), (0 : ℝ)]] [[(3 : ℝ)]] [] [] 1).isSome = true := rfl

/-- C9, amended: dimensionally malformed matrix/vector operands do fail
fast — a state vector whose length differs from `K`'s column count makes
the `np.dot` boundary reject the call — but the Lipschitz vectors are
never validated in the point branch: the result is identical for any
`L_mu`, `L_sigm`, of any length. -/
theorem onestep_point_dim_checks :
    (∀ (p_center : List (List ℝ)) gp K k L_mu L_sigm (c_safety : ℝ) (nu2 ns2 m1 c1 : ℕ),
        shape2 K = some (nu2, ns2) → shape2 p_center = some (m1, c1) → ns2 ≠ m1 →
        onestep_reachability_point p_center gp K k L_mu L_sigm c_safety = none)
    ∧ ∀ (p_center : List (List ℝ)) gp K k L_mu L_sigm L_mu' L_sigm' (c_safety : ℝ),
        onestep_reachability_point p_center gp K k L_mu L_sigm c_safety =
          onestep_reachability_point p_center gp K k L_mu' L_sigm' c_safety := by
  constructor
  · intro p gp K k L1 S1 c nu2 ns2 m1 c1 hK hp hne
    unfold onestep_reachability_point matmulU
    rw [hK, hp]
    simp [hne]
  · intro p gp K k L1 S1 L2 S2 c
    rfl

/-- C9, witness for the amended theorem: a 2×1 state against a 1×1 gain
matrix is rejected. -/
theorem onestep_point_dim_checks_witness :
    onestep_reachability_point [[(1 : ℝ)], [(2 : ℝ)]] (fun _ => none) [[(1 : ℝ)]]
      [[(0 : ℝ)]] [] [] 1 = none :=
  onestep_point_dim_checks.1 [[(1 : ℝ)], [(2 : ℝ)]] (fun _ => none) [[(1 : ℝ)]]
    [[(0 : ℝ)]] [] [] 1 1 1 2 1 rfl rfl (by decide)

/-
Internal lemmas for the `c_safety`-monotonicity claim: a closed form for
the τ-balanced shape sum when both traces are positive squares, positivity
helpers, and the resulting closed form of the set-branch output shape as a
function of `c_safety`.
-/

lemma sum_ellipsoids_shape {n : ℕ} (p1 p2 : Fin n → ℝ) (A B : Matrix (Fin n) (Fin n) ℝ)
    (α β : ℝ) (hα : 0 < α) (hβ : 0 < β) (hA : A.trace = α ^ 2) (hB : B.trace = β ^ 2) :
    (sum_ellipsoids p1 A p2 B).2 = (α + β) • (α⁻¹ • A + β⁻¹ • B) := by
  have hα' : α ≠ 0 := ne_of_gt hα
  have hβ' : β ≠ 0 := ne_of_gt hβ
  have ht : Real.sqrt (A.trace / B.trace) = α / β := by
    rw [hA, hB, ← div_pow, Real.sqrt_sq (le_of_lt (div_pos hα hβ))]
  have h2 : (sum_ellipsoids p1 A p2 B).2 =
      (1 + 1 / Real.sqrt (A.trace / B.trace)) • A +
        (1 + Real.sqrt (A.trace / B.trace)) • B := rfl
  rw [h2, ht, smul_add, smul_smul, smul_smul]
  have e1 : (1 : ℝ) + 1 / (α / β) = (α + β) * α⁻¹ := by field_simp
  have e2 : (1 : ℝ) + α / β = (α + β) * β⁻¹ := by field_simp; ring
  rw [e1, e2]

lemma posSemidef_smul {n : ℕ} {A : Matrix (Fin n) (Fin n) ℝ} (hA : A.PosSemidef) {c : ℝ}
    (hc : 0 ≤ c) : (c • A).PosSemidef := by
  refine ⟨?_, fun x => ?_⟩
  · show (c • A)ᴴ = c • A
    rw [Matrix.conjTranspose_smul, star_trivial, hA.1]
  · rw [Matrix.smul_mulVec_assoc, dotProduct_smul, smul_eq_mul]
    exact mul_nonneg hc (hA.2 x)

lemma posSemidef_diag_entry {n : ℕ} {A : Matrix (Fin n) (Fin n) ℝ} (hA : A.PosSemidef)
    (i : Fin n) : 0 ≤ A i i := by
  have h := hA.2 (Pi.single i 1)
  simpa using h

lemma Q_lagrange_sigm_smul {ns nu : ℕ} (gp : SimpleGPModel ns nu) (p_center : Fin ns → ℝ)
    (K : Matrix (Fin nu) (Fin ns) ℝ) (k : Fin nu → ℝ) (L_sigm : Fin ns → ℝ)
    (q : Matrix (Fin ns) (Fin ns) ℝ) (c : ℝ) (v : ℤ) :
    Q_lagrange_sigm_of gp p_center K k L_sigm q c v =
      c • Vsigm_of gp p_center K k L_sigm q v := by
  unfold Q_lagrange_sigm_of Vsigm_of
  rw [← Matrix.diagonal_smul]
  rfl

lemma onestep_set_shape_sums {ns nu : ℕ} (p_center : Fin ns → ℝ) (gp : SimpleGPModel ns nu)
    (K : Matrix (Fin nu) (Fin ns) ℝ) (k : Fin nu → ℝ) (L_mu L_sigm : Fin ns → ℝ)
    (q : Matrix (Fin ns) (Fin ns) ℝ) (c : ℝ) (v : ℤ) :
    (onestep_reachability p_center gp K k L_mu L_sigm (some q) c v).1.2 =
      (sum_ellipsoids 0
        (sum_ellipsoids 0
          (sum_ellipsoids (0 : Fin ns → ℝ) (Q_lagrange_sigm_of gp p_center K k L_sigm q c v)
            0 (Q_lagrange_mu_of p_center K k L_mu q v)).2
          0 (Q0_of gp p_center k K q)).2
        0 q).2 := rfl

lemma onestep_set_shape_closed {ns nu : ℕ} (p_center : Fin ns → ℝ) (gp : SimpleGPModel ns nu)
    (K : Matrix (Fin nu) (Fin ns) ℝ) (k : Fin nu → ℝ) (L_mu L_sigm : Fin ns → ℝ)
    (q : Matrix (Fin ns) (Fin ns) ℝ) (c : ℝ) (v : ℤ) (hc : 0 < c)
    (hV : 0 < (Vsigm_of gp p_center K k L_sigm q v).trace)
    (hM : 0 < (Q_lagrange_mu_of p_center K k L_mu q v).trace)
    (hQ0 : 0 < (Q0_of gp p_center k K q).trace)
    (hq : 0 < q.trace) :
    (onestep_reachability p_center gp K k L_mu L_sigm (some q) c v).1.2 =
      (Real.sqrt c * Real.sqrt (Vsigm_of gp p_center K k L_sigm q v).trace
        + Real.sqrt (Q_lagrange_mu_of p_center K k L_mu q v).trace
        + Real.sqrt (Q0_of gp p_center k K q).trace + Real.sqrt q.trace) •
      ((Real.sqrt c / Real.sqrt (Vsigm_of gp p_center K k L_sigm q v).trace) •
          Vsigm_of gp p_center K k L_sigm q v
        + (Real.sqrt (Q_lagrange_mu_of p_center K k L_mu q v).trace)⁻¹ •
            Q_lagrange_mu_of p_center K k L_mu q v
        + (Real.sqrt (Q0_of gp p_center k K q).trace)⁻¹ • Q0_of gp p_center k K q
        + (Real.sqrt q.trace)⁻¹ • q) := by
  set V := Vsigm_of gp p_center K k L_sigm q v with hVdef
  set M := Q_lagrange_mu_of p_center K k L_mu q v with hMdef
  set Q0 := Q0_of gp p_center k K q with hQ0def
  set a := Real.sqrt c with hadef
  set s := Real.sqrt V.trace with hsdef
  set m2 := Real.sqrt M.trace with hm2def
  set q2 := Real.sqrt Q0.trace with hq2def
  set r2 := Real.sqrt q.trace with hr2def
  have ha : 0 < a := Real.sqrt_pos.mpr hc
  have hs : 0 < s := Real.sqrt_pos.mpr hV
  have hm2p : 0 < m2 := Real.sqrt_pos.mpr hM
  have hq2p : 0 < q2 := Real.sqrt_pos.mpr hQ0
  have hr2p : 0 < r2 := Real.sqrt_pos.mpr hq
  have ha' : a ≠ 0 := ne_of_gt ha
  have hs' : s ≠ 0 := ne_of_gt hs
  have hm2' : m2 ≠ 0 := ne_of_gt hm2p
  have hq2' : q2 ≠ 0 := ne_of_gt hq2p
  have hr2' : r2 ≠ 0 := ne_of_gt hr2p
  have ha2 : a ^ 2 = c := Real.sq_sqrt hc.le
  have hs2 : s ^ 2 = V.trace := Real.sq_sqrt (le_of_lt hV)
  have hm22 : m2 ^ 2 = M.trace := Real.sq_sqrt (le_of_lt hM)
  have hq22 : q2 ^ 2 = Q0.trace := Real.sq_sqrt (le_of_lt hQ0)
  have hr22 : r2 ^ 2 = q.trace := Real.sq_sqrt (le_of_lt hq)
  have hcV : (c • V).trace = (a * s) ^ 2 := by
    rw [Matrix.trace_smul, smul_eq_mul, mul_pow, ha2, hs2]
  have pos1 : 0 < a * s + m2 := add_pos (mul_pos ha hs) hm2p
  have pos2 : 0 < a * s + m2 + q2 := add_pos pos1 hq2p
  have t1 : (sum_ellipsoids (0 : Fin ns → ℝ)
      (Q_lagrange_sigm_of gp p_center K k L_sigm q c v) 0 M).2
      = (a * s + m2) • ((a / s) • V + m2⁻¹ • M) := by
    rw [Q_lagrange_sigm_smul, ← hVdef,
      sum_ellipsoids_shape 0 0 (c • V) M (a * s) m2 (mul_pos ha hs) hm2p hcV hm22.symm]
    have e : (a * s)⁻¹ • (c • V) = (a / s) • V := by
      rw [smul_smul]
      congr 1
      rw [← ha2]
      field_simp
      ring
    rw [e]
  have tr1 : ((a * s + m2) • ((a / s) • V + m2⁻¹ • M)).trace = (a * s + m2) ^ 2 := by
    rw [Matrix.trace_smul, Matrix.trace_add, Matrix.trace_smul, Matrix.trace_smul,
      ← hs2, ← hm22]
    simp only [smul_eq_mul]
    field_simp
    ring
  have t2 : (sum_ellipsoids (0 : Fin ns → ℝ)
      ((a * s + m2) • ((a / s) • V + m2⁻¹ • M)) 0 Q0).2
      = (a * s + m2 + q2) • ((a / s) • V + m2⁻¹ • M + q2⁻¹ • Q0) := by
    rw [sum_ellipsoids_shape 0 0 _ Q0 (a * s + m2) q2 pos1 hq2p tr1 hq22.symm,
      inv_smul_smul₀ (ne_of_gt pos1)]
  have tr2 : ((a * s + m2 + q2) • ((a / s) • V + m2⁻¹ • M + q2⁻¹ • Q0)).trace
      = (a * s + m2 + q2) ^ 2 := by
    rw [Matrix.trace_smul, Matrix.trace_add, Matrix.trace_add, Matrix.trace_smul,
      Matrix.trace_smul, Matrix.trace_smul, ← hs2, ← hm22, ← hq22]
    simp only [smul_eq_mul]
    field_simp
    ring
  have t3 : (sum_ellipsoids (0 : Fin ns → ℝ)
      ((a * s + m2 + q2) • ((a / s) • V + m2⁻¹ • M + q2⁻¹ • Q0)) 0 q).2
      = (a * s + m2 + q2 + r2) • ((a / s) • V + m2⁻¹ • M + q2⁻¹ • Q0 + r2⁻¹ • q) := by
    rw [sum_ellipsoids_shape 0 0 _ q (a * s + m2 + q2) r2 pos2 hr2p tr2 hr22.symm,
      inv_smul_smul₀ (ne_of_gt pos2)]
  rw [onestep_set_shape_sums, t1, t2, t3]

lemma onestep_set_shape_diff {ns nu : ℕ} (p_center : Fin ns → ℝ) (gp : SimpleGPModel ns nu)
    (K : Matrix (Fin nu) (Fin ns) ℝ) (k : Fin nu → ℝ) (L_mu L_sigm : Fin ns → ℝ)
    (q : Matrix (Fin ns) (Fin ns) ℝ) (c1 c2 : ℝ) (v : ℤ) (hc1 : 0 < c1) (hc2 : 0 < c2)
    (hV : 0 < (Vsigm_of gp p_center K k L_sigm q v).trace)
    (hM : 0 < (Q_lagrange_mu_of p_center K k L_mu q v).trace)
    (hQ0 : 0 < (Q0_of gp p_center k K q).trace)
    (hq : 0 < q.trace) :
    (onestep_reachability p_center gp K k L_mu L_sigm (some q) c2 v).1.2 -
      (onestep_reachability p_center gp K k L_mu L_sigm (some q) c1 v).1.2 =
      (Real.sqrt c2 ^ 2 - Real.sqrt c1 ^ 2) • Vsigm_of gp p_center K k L_sigm q v
      + (Real.sqrt c2 - Real.sqrt c1) •
        (((Real.sqrt (Q_lagrange_mu_of p_center K k L_mu q v).trace
            + Real.sqrt (Q0_of gp p_center k K q).trace + Real.sqrt q.trace) /
            Real.sqrt (Vsigm_of gp p_center K k L_sigm q v).trace) •
            Vsigm_of gp p_center K k L_sigm q v
          + Real.sqrt (Vsigm_of gp p_center K k L_sigm q v).trace •
            ((Real.sqrt (Q_lagrange_mu_of p_center K k L_mu q v).trace)⁻¹ •
                Q_lagrange_mu_of p_center K k L_mu q v
              + (Real.sqrt (Q0_of gp p_center k K q).trace)⁻¹ • Q0_of gp p_center k K q
              + (Real.sqrt q.trace)⁻¹ • q)) := by
  rw [onestep_set_shape_closed p_center gp K k L_mu L_sigm q c2 v hc2 hV hM hQ0 hq,
    onestep_set_shape_closed p_center gp K k L_mu L_sigm q c1 v hc1 hV hM hQ0 hq]
  set V := Vsigm_of gp p_center K k L_sigm q v with hVdef
  set M := Q_lagrange_mu_of p_center K k L_mu q v with hMdef
  set Q0 := Q0_of gp p_center k K q with hQ0def
  set a1 := Real.sqrt c1 with ha1def
  set a2 := Real.sqrt c2 with ha2def
  set s := Real.sqrt V.trace with hsdef
  set m2 := Real.sqrt M.trace with hm2def
  set q2 := Real.sqrt Q0.trace with hq2def
  set r2 := Real.sqrt q.trace with hr2def
  have hs' : s ≠ 0 := ne_of_gt (Real.sqrt_pos.mpr hV)
  have hm2' : m2 ≠ 0 := ne_of_gt (Real.sqrt_pos.mpr hM)
  have hq2' : q2 ≠ 0 := ne_of_gt (Real.sqrt_pos.mpr hQ0)
  have hr2' : r2 ≠ 0 := ne_of_gt (Real.sqrt_pos.mpr hq)
  ext i j
  simp only [Matrix.sub_apply, Matrix.add_apply, Matrix.smul_apply, smul_eq_mul]
  field_simp
  ring

lemma onestep_set_monotone {ns nu : ℕ} (p_center : Fin ns → ℝ) (gp : SimpleGPModel ns nu)
    (K : Matrix (Fin nu) (Fin ns) ℝ) (k : Fin nu → ℝ) (L_mu L_sigm : Fin ns → ℝ)
    (q : Matrix (Fin ns) (Fin ns) ℝ) (c1 c2 : ℝ) (v : ℤ) (hc1 : 0 < c1) (hc12 : c1 ≤ c2)
    (hpsd : q.PosSemidef) (hq : 0 < q.trace)
    (hV : 0 < (Vsigm_of gp p_center K k L_sigm q v).trace)
    (hM : 0 < (Q_lagrange_mu_of p_center K k L_mu q v).trace)
    (hQ0 : 0 < (Q0_of gp p_center k K q).trace) :
    (∀ i, (onestep_reachability p_center gp K k L_mu L_sigm (some q) c1 v).1.2 i i ≤
          (onestep_reachability p_center gp K k L_mu L_sigm (some q) c2 v).1.2 i i)
    ∧ ((onestep_reachability p_center gp K k L_mu L_sigm (some q) c2 v).1.2 -
       (onestep_reachability p_center gp K k L_mu L_sigm (some q) c1 v).1.2).PosSemidef := by
  have hc2 : 0 < c2 := lt_of_lt_of_le hc1 hc12
  have hdiff := onestep_set_shape_diff p_center gp K k L_mu L_sigm q c1 c2 v hc1 hc2 hV hM hQ0 hq
  rw [Real.sq_sqrt hc1.le, Real.sq_sqrt hc2.le] at hdiff
  have hVpsd : (Vsigm_of gp p_center K k L_sigm q v).PosSemidef := by
    unfold Vsigm_of
    exact Matrix.posSemidef_diagonal_iff.mpr (fun i => sq_nonneg _)
  have hMpsd : (Q_lagrange_mu_of p_center K k L_mu q v).PosSemidef := by
    unfold Q_lagrange_mu_of ellipsoid_from_box
    exact Matrix.posSemidef_diagonal_iff.mpr
      (fun i => mul_nonneg (Nat.cast_nonneg _) (sq_nonneg _))
  have hQ0psd : (Q0_of gp p_center k K q).PosSemidef := by
    unfold Q0_of
    have h := hpsd.mul_mul_conjTranspose_same (H_of gp p_center k K)
    rwa [Matrix.conjTranspose_eq_transpose_of_trivial] at h
  have hNpsd : ((Real.sqrt (Q_lagrange_mu_of p_center K k L_mu q v).trace)⁻¹ •
        Q_lagrange_mu_of p_center K k L_mu q v
      + (Real.sqrt (Q0_of gp p_center k K q).trace)⁻¹ • Q0_of gp p_center k K q
      + (Real.sqrt q.trace)⁻¹ • q).PosSemidef :=
    Matrix.PosSemidef.add
      (Matrix.PosSemidef.add
        (posSemidef_smul hMpsd (inv_nonneg.mpr (Real.sqrt_nonneg _)))
        (posSemidef_smul hQ0psd (inv_nonneg.mpr (Real.sqrt_nonneg _))))
      (posSemidef_smul hpsd (inv_nonneg.mpr (Real.sqrt_nonneg _)))
  have hWpsd : (((Real.sqrt (Q_lagrange_mu_of p_center K k L_mu q v).trace
        + Real.sqrt (Q0_of gp p_center k K q).trace + Real.sqrt q.trace) /
        Real.sqrt (Vsigm_of gp p_center K k L_sigm q v).trace) •
        Vsigm_of gp p_center K k L_sigm q v
      + Real.sqrt (Vsigm_of gp p_center K k L_sigm q v).trace •
        ((Real.sqrt (Q_lagrange_mu_of p_center K k L_mu q v).trace)⁻¹ •
            Q_lagrange_mu_of p_center K k L_mu q v
          + (Real.sqrt (Q0_of gp p_center k K q).trace)⁻¹ • Q0_of gp p_center k K q
          + (Real.sqrt q.trace)⁻¹ • q)).PosSemidef :=
    Matrix.PosSemidef.add
      (posSemidef_smul hVpsd
        (div_nonneg
          (add_nonneg (add_nonneg (Real.sqrt_nonneg _) (Real.sqrt_nonneg _))
            (Real.sqrt_nonneg _))
          (Real.sqrt_nonneg _)))
      (posSemidef_smul hNpsd (Real.sqrt_nonneg _))
  have hDpsd : ((onestep_reachability p_center gp K k L_mu L_sigm (some q) c2 v).1.2 -
      (onestep_reachability p_center gp K k L_mu L_sigm (some q) c1 v).1.2).PosSemidef := by
    rw [hdiff]
    exact Matrix.PosSemidef.add
      (posSemidef_smul hVpsd (sub_nonneg.mpr hc12))
      (posSemidef_smul hWpsd (sub_nonneg.mpr (Real.sqrt_le_sqrt hc12)))
  refine ⟨fun i => ?_, hDpsd⟩
  have h0 := posSemidef_diag_entry hDpsd i
  rw [Matrix.sub_apply] at h0
  linarith

/-- C7: increasing `c_safety` never shrinks the shape matrix returned by
`onestep_reachability`: for `0 < c1 ≤ c2` (with the model honouring the
interface contract that predictive variances are nonnegative and, in the
set case, the input shape being positive semidefinite with the τ-balancing
rule's traces positive), every diagonal entry of the shape returned with
`c2` is at least the corresponding entry returned with `c1`, and the
difference of the two shapes is positive semidefinite (so no eigenvalue
shrinks either). -/
theorem onestep_c_safety_monotone {ns nu : ℕ} (p_center : Fin ns → ℝ)
    (gp : SimpleGPModel ns nu) (K : Matrix (Fin nu) (Fin ns) ℝ) (k : Fin nu → ℝ)
    (L_mu L_sigm : Fin ns → ℝ) (q_shape : Option (Matrix (Fin ns) (Fin ns) ℝ))
    (c1 c2 : ℝ) (verbose : ℤ) (hc1 : 0 < c1) (hc12 : c1 ≤ c2)
    (hvar : ∀ i, 0 ≤ (gp.predict (Fin.append p_center (K.mulVec p_center + k))).2 i)
    (hset : ∀ q, q_shape = some q → q.PosSemidef ∧ 0 < q.trace ∧
        0 < (Vsigm_of gp p_center K k L_sigm q verbose).trace ∧
        0 < (Q_lagrange_mu_of p_center K k L_mu q verbose).trace ∧
        0 < (Q0_of gp p_center k K q).trace) :
    (∀ i, (onestep_reachability p_center gp K k L_mu L_sigm q_shape c1 verbose).1.2 i i ≤
          (onestep_reachability p_center gp K k L_mu L_sigm q_shape c2 verbose).1.2 i i)
    ∧ ((onestep_reachability p_center gp K k L_mu L_sigm q_shape c2 verbose).1.2 -
       (onestep_reachability p_center gp K k L_mu L_sigm q_shape c1 verbose).1.2).PosSemidef := by
  cases q_shape with
  | none =>
    have e : ∀ c : ℝ,
        (onestep_reachability p_center gp K k L_mu L_sigm none c verbose).1.2 =
          Matrix.diagonal (fun i =>
            (gp.predict (Fin.append p_center (K.mulVec p_center + k))).2 i * c) :=
      fun c => rfl
    constructor
    · intro i
      rw [e c1, e c2, Matrix.diagonal_apply_eq, Matrix.diagonal_apply_eq]
      exact mul_le_mul_of_nonneg_left hc12 (hvar i)
    · rw [e c2, e c1, Matrix.diagonal_sub]
      refine Matrix.posSemidef_diagonal_iff.mpr (fun i => ?_)
      have h2 : (gp.predict (Fin.append p_center (K.mulVec p_center + k))).2 i * c2 -
          (gp.predict (Fin.append p_center (K.mulVec p_center + k))).2 i * c1 =
          (gp.predict (Fin.append p_center (K.mulVec p_center + k))).2 i * (c2 - c1) := by
        ring
      rw [h2]
      exact mul_nonneg (hvar i) (sub_nonneg.mpr hc12)
  | some q =>
    obtain ⟨hpsd, hqt, hVt, hMt, hQ0t⟩ := hset q rfl
    exact onestep_set_monotone p_center gp K k L_mu L_sigm q c1 c2 verbose hc1 hc12
      hpsd hqt hVt hMt hQ0t

/-- C7, witness: the monotonicity theorem applied at a concrete set-case
input with `c1 = 1 ≤ 2 = c2`. -/
theorem onestep_c_safety_monotone_witness :
    (∀ i, (onestep_reachability ![(0 : ℝ)] gp1 !![(0 : ℝ)] ![(0 : ℝ)] ![(1 : ℝ)] ![(1 : ℝ)]
            (some !![(1 : ℝ)]) 1 1).1.2 i i ≤
          (onestep_reachability ![(0 : ℝ)] gp1 !![(0 : ℝ)] ![(0 : ℝ)] ![(1 : ℝ)] ![(1 : ℝ)]
            (some !![(1 : ℝ)]) 2 1).1.2 i i)
    ∧ ((onestep_reachability ![(0 : ℝ)] gp1 !![(0 : ℝ)] ![(0 : ℝ)] ![(1 : ℝ)] ![(1 : ℝ)]
          (some !![(1 : ℝ)]) 2 1).1.2 -
       (onestep_reachability ![(0 : ℝ)] gp1 !![(0 : ℝ)] ![(0 : ℝ)] ![(1 : ℝ)] ![(1 : ℝ)]
          (some !![(1 : ℝ)]) 1 1).1.2).PosSemidef :=
  onestep_c_safety_monotone ![(0 : ℝ)] gp1 !![(0 : ℝ)] ![(0 : ℝ)] ![(1 : ℝ)] ![(1 : ℝ)]
    (some !![(1 : ℝ)]) 1 2 1 (by norm_num) (by norm_num)
    (by intro i; simp [gp1])
    (by
      intro q hq
      have hq' : q = !![(1 : ℝ)] := by
        injection hq with h
        exact h.symm
      subst hq'
      have hA : A_mu_of gp1 ![(0 : ℝ)] ![(0 : ℝ)] = !![(1 : ℝ)] := by
        ext i j
        fin_cases i
        fin_cases j
        rfl
      have hB : B_mu_of gp1 ![(0 : ℝ)] ![(0 : ℝ)] = !![(0 : ℝ)] := by
        ext i j
        fin_cases i
        fin_cases j
        rfl
      refine ⟨?_, ?_, ?_, ?_, ?_⟩
      · have hd : (!![(1 : ℝ)]) = Matrix.diagonal (fun _ => (1 : ℝ)) := by
          ext i j
          fin_cases i
          fin_cases j
          simp
        rw [hd]
        exact Matrix.posSemidef_diagonal_iff.mpr (fun _ => by norm_num)
      · norm_num [Matrix.trace_fin_one]
      · norm_num [Vsigm_of, compute_bounding_box_lagrangian, zbar_set, gp1,
          Matrix.trace_diagonal, Fin.sum_univ_one, Matrix.mul_apply,
          Real.sqrt_one, Real.sqrt_zero]
      · norm_num [Q_lagrange_mu_of, ellipsoid_from_box, compute_bounding_box_lagrangian,
          Matrix.trace_diagonal, Fin.sum_univ_one, Matrix.mul_apply,
          Real.sqrt_one, Real.sqrt_zero]
      · unfold Q0_of H_of
        rw [hA, hB]
        have h1 : (!![(1 : ℝ)] + !![(0 : ℝ)] * !![(0 : ℝ)]) = !![(1 : ℝ)] := by
          ext i j
          fin_cases i
          fin_cases j
          simp [Matrix.mul_apply]
        rw [h1]
        have h2 : (!![(1 : ℝ)] * !![(1 : ℝ)] * (!![(1 : ℝ)])ᵀ) = !![(1 : ℝ)] := by
          ext i j
          fin_cases i
          fin_cases j
          simp [Matrix.mul_apply, Fin.sum_univ_one]
        rw [h2]
        norm_num [Matrix.trace_fin_one])
